import Mathlib

/-!
Verification of a unified-diff parsing library (`src/lib.rs`).

The Rust source is shallowly embedded: text is represented as lists of
characters (`Str`), the anchored regular expressions of the source are
modelled by explicit matching functions, the stateful top-level parse loop
becomes explicit state passing, and fallible operations return
`Except`/`Option`.  A distinguished outcome constructor models the one
reachable `unwrap` panic of the source.
-/

namespace Unidiff

/-- Characters of a piece of text; the embedding of Rust string slices. -/
abbrev Str := List Char

/-- Removes the literal `p` from the front of `s`, or fails; models an
anchored literal regex fragment. -/
def dropLit : Str → Str → Option Str
  | [], s => some s
  | _ :: _, [] => none
  | p :: ps, c :: cs => if p = c then dropLit ps cs else none

/-- Tests whether `s` starts with the literal `p` (Rust `str::starts_with`). -/
def startsWithL (p s : Str) : Bool := (dropLit p s).isSome

/-- Tests whether `s` ends with the literal `suf` (Rust `str::ends_with`). -/
def endsWithL (suf s : Str) : Bool := startsWithL suf.reverse s.reverse

/-- Truncates at the first newline; models the regex `.` not matching a
newline when a capture group reads the remainder of the text. -/
def nlTrunc (s : Str) : Str := s.takeWhile (fun c => !(c == '\n'))

/-- Decimal digit test; models `\d` of the hunk-header regex (restricted to
ASCII digits, the only digits occurring in well-formed headers). -/
def isDig (c : Char) : Bool :=
  c == '0' || c == '1' || c == '2' || c == '3' || c == '4' ||
  c == '5' || c == '6' || c == '7' || c == '8' || c == '9'

/-- Numeric value of a digit character. -/
def digitVal (c : Char) : Nat := c.toNat - 48

/-- Accumulating decimal read; models `str::parse::<usize>` on a digit run
(with mathematical naturals in place of machine integers). -/
def natOfDigits : Nat → Str → Nat
  | a, [] => a
  | a, c :: cs => natOfDigits (a * 10 + digitVal c) cs

/-- Digit character of a value below ten. -/
def digitChar : Nat → Char
  | 0 => '0' | 1 => '1' | 2 => '2' | 3 => '3' | 4 => '4'
  | 5 => '5' | 6 => '6' | 7 => '7' | 8 => '8' | _ => '9'

/-- Fueled decimal printing loop (structural in the fuel so that the kernel
can evaluate it). -/
def natDigitsGo : Nat → Nat → Str → Str
  | 0, _, acc => acc
  | fuel + 1, n, acc =>
    if n = 0 then acc else natDigitsGo fuel (n / 10) (digitChar (n % 10) :: acc)

/-- Decimal rendering of a natural number; models `usize` `Display`. -/
def natDigits (n : Nat) : Str := if n = 0 then ['0'] else natDigitsGo (n + 1) n []

/-- Diff line type (`LineType` in the source). -/
inductive LineType where
  | Added
  | Removed
  | Context
  | Empty
deriving DecidableEq

/-- A diff line (`Line` in the source). -/
structure Line where
  source_line_no : Option Nat
  target_line_no : Option Nat
  diff_line_no : Nat
  line_type : LineType
  value : Str
deriving DecidableEq

/-- Diff line type is added (`Line::is_added`). -/
def Line.is_added (l : Line) : Bool := l.line_type = LineType.Added

/-- Diff line type is removed (`Line::is_removed`). -/
def Line.is_removed (l : Line) : Bool := l.line_type = LineType.Removed

/-- Diff line type is context (`Line::is_context`). -/
def Line.is_context (l : Line) : Bool := l.line_type = LineType.Context

/-- A modified block of a file (`Hunk` in the source). -/
structure Hunk where
  added : Nat
  removed : Nat
  source_start : Nat
  source_length : Nat
  target_start : Nat
  target_length : Nat
  section_header : Str
  lines : List Line
deriving DecidableEq

/-- Appends a line to a hunk, maintaining the running counters
(`Hunk::append`). -/
def Hunk.append (h : Hunk) (l : Line) : Hunk :=
  if l.is_added then { h with added := h.added + 1, lines := h.lines ++ [l] }
  else if l.is_removed then { h with removed := h.removed + 1, lines := h.lines ++ [l] }
  else { h with lines := h.lines ++ [l] }

/-- A changed file (`PatchedFile` in the source); the private `hunks` vector
is an ordinary field here. -/
structure PatchedFile where
  source_file : Str
  source_timestamp : Option Str
  target_file : Str
  target_timestamp : Option Str
  hunks : List Hunk
deriving DecidableEq

/-- Patched file relative path (`PatchedFile::path`). -/
def PatchedFile.path (pf : PatchedFile) : Str :=
  if startsWithL "a/".data pf.source_file && startsWithL "b/".data pf.target_file then
    pf.source_file.drop 2
  else if startsWithL "a/".data pf.source_file && pf.target_file == "/dev/null".data then
    pf.source_file.drop 2
  else if startsWithL "b/".data pf.target_file && pf.source_file == "/dev/null".data then
    pf.target_file.drop 2
  else pf.source_file

/-- Count of lines added over all hunks (`PatchedFile::added`). -/
def PatchedFile.added (pf : PatchedFile) : Nat :=
  (pf.hunks.map Hunk.added).foldl (· + ·) 0

/-- Count of lines removed over all hunks (`PatchedFile::removed`). -/
def PatchedFile.removed (pf : PatchedFile) : Nat :=
  (pf.hunks.map Hunk.removed).foldl (· + ·) 0

/-- Is this file newly added (`PatchedFile::is_added_file`): exactly one hunk
whose declared source start and source length are both zero. -/
def PatchedFile.is_added_file (pf : PatchedFile) : Bool :=
  match pf.hunks with
  | [h] => h.source_start = 0 && h.source_length = 0
  | _ => false

/-- Is this file removed (`PatchedFile::is_removed_file`). -/
def PatchedFile.is_removed_file (pf : PatchedFile) : Bool :=
  match pf.hunks with
  | [h] => h.target_start = 0 && h.target_length = 0
  | _ => false

/-- Is this file modified (`PatchedFile::is_modified_file`). -/
def PatchedFile.is_modified_file (pf : PatchedFile) : Bool :=
  !pf.is_added_file && !pf.is_removed_file

deriving instance DecidableEq for Except

/-- Error type (`Error` in the source), each variant carrying the offending
line. -/
inductive Error where
  | TargetWithoutSource (line : Str)
  | UnexpectedHunk (line : Str)
  | ExpectLine (line : Str)
deriving DecidableEq

/-- The literal trailing text of a no-newline marker line. -/
def noNlMarker : Str := "\\ No newline at end of file".data

/-- Classification of one hunk body line; models `RE_HUNK_BODY_LINE`
(`^(?P<line_type>[- \n\+\\]?)(?P<value>.*)`) together with the `match` on the
captured `line_type` in `PatchedFile::parse_hunk`.  The regex always matches,
so the only failure is the `ExpectLine` arm for a backslash-led line that
does not end in the no-newline marker. -/
def classifyBodyLine (line : Str) : Except Str (LineType × Str) :=
  match line with
  | [] => .ok (.Context, [])
  | c :: rest =>
    if c = '+' then .ok (.Added, nlTrunc rest)
    else if c = '-' then .ok (.Removed, nlTrunc rest)
    else if c = ' ' then .ok (.Context, nlTrunc rest)
    else if c = '\n' then .ok (.Context, nlTrunc rest)
    else if c = '\\' then
      if endsWithL noNlMarker line then .ok (.Empty, nlTrunc rest)
      else .error line
    else .ok (.Context, nlTrunc line)

/-- A character allowed in a filename capture (`[^\t\n]`). -/
def notTabNl (c : Char) : Bool := !(c == '\t') && !(c == '\n')

/-- Models `RE_SOURCE_FILENAME`/`RE_TARGET_FILENAME`
(`^<marker>(?P<filename>[^\t\n]+)(?:\t(?P<timestamp>[^\n]+))?`) applied to one
line: the result is the filename capture and the optional timestamp
capture. -/
def matchFileHeader (marker line : Str) : Option (Str × Option Str) :=
  match dropLit marker line with
  | none => none
  | some rest =>
    if (rest.takeWhile notTabNl).isEmpty then none
    else
      match rest.dropWhile notTabNl with
      | '\t' :: t =>
        if (nlTrunc t).isEmpty then some (rest.takeWhile notTabNl, none)
        else some (rest.takeWhile notTabNl, some (nlTrunc t))
      | _ => some (rest.takeWhile notTabNl, none)

/-- Reads `(\d+)(?:,(\d+))?` from the front of `s`: a number, an optional
comma-separated second number, and the remainder. -/
def parseNumPair (s : Str) : Option (Nat × Option Nat × Str) :=
  if (s.takeWhile isDig).isEmpty then none
  else
    match s.dropWhile isDig with
    | ',' :: r2 =>
      if (r2.takeWhile isDig).isEmpty then none
      else some (natOfDigits 0 (s.takeWhile isDig), some (natOfDigits 0 (r2.takeWhile isDig)),
        r2.dropWhile isDig)
    | r1 => some (natOfDigits 0 (s.takeWhile isDig), none, r1)

/-- Models `RE_HUNK_HEADER`
(`^@@ -(\d+)(?:,(\d+))? \+(\d+)(?:,(\d+))? @@[ ]?(?P<section_header>.*)`):
returns the two start values, the two optional lengths and the section
header capture. -/
def parseHunkHeader (line : Str) : Option (Nat × Option Nat × Nat × Option Nat × Str) :=
  match dropLit "@@ -".data line with
  | none => none
  | some r1 =>
    match parseNumPair r1 with
    | none => none
    | some (ss, slo, r2) =>
      match dropLit " +".data r2 with
      | none => none
      | some r3 =>
        match parseNumPair r3 with
        | none => none
        | some (ts, tlo, r4) =>
          match dropLit " @@".data r4 with
          | none => none
          | some r5 =>
            let r6 := match r5 with
              | ' ' :: t => t
              | _ => r5
            some (ss, slo, ts, tlo, nlTrunc r6)

/-- Cursor movement of one classified body line: added lines advance the
target cursor only, removed lines the source cursor only, context lines
both, empty lines neither. -/
def ltStep (s t : Nat) : LineType → Nat × Nat
  | .Added => (s, t + 1)
  | .Removed => (s + 1, t)
  | .Context => (s + 1, t + 1)
  | .Empty => (s, t)

/-- The `Line` record built for one body line at diff index `dno` with the
current cursors, as in the body of the loop of `PatchedFile::parse_hunk`. -/
def mkBodyLine (dno s t : Nat) (lt : LineType) (v : Str) : Line :=
  let l0 : Line := ⟨none, none, dno + 1, lt, v⟩
  match lt with
  | .Added => { l0 with target_line_no := some t }
  | .Removed => { l0 with source_line_no := some s }
  | .Context => { l0 with source_line_no := some s, target_line_no := some t }
  | .Empty => l0

/-- Result of handling one body line inside the hunk loop: a line to append
together with the updated cursors and the value of the stopping test, or a
classification failure. -/
inductive LoopRes where
  | push (l : Line) (s2 t2 : Nat) (stop : Bool)
  | bad (l : Str)
deriving DecidableEq

/-- One body line of the loop of `PatchedFile::parse_hunk`: classify the
line, build its `Line` record from the cursors, advance the cursors, and
evaluate the stopping condition (both cursors have reached or passed the
expected ends). -/
def hunkLineStep (endS endT n s t : Nat) (line : Str) : LoopRes :=
  match classifyBodyLine line with
  | .error l => .bad l
  | .ok (lt, v) =>
    .push (mkBodyLine n s t lt v) (ltStep s t lt).1 (ltStep s t lt).2
      (decide ((ltStep s t lt).1 ≥ endS ∧ (ltStep s t lt).2 ≥ endT))

/-- The consuming loop of `PatchedFile::parse_hunk`: appends each classified
line and stops as soon as the stopping condition holds after an append. -/
def parseHunkLoop (endS endT : Nat) : Nat → Nat → Nat → Hunk → List Str → Except Error Hunk
  | _, _, _, hk, [] => .ok hk
  | n, s, t, hk, line :: rest =>
    match hunkLineStep endS endT n s t line with
    | .bad l => .error (.ExpectLine l)
    | .push l s2 t2 stop =>
      if stop then .ok (hk.append l)
      else parseHunkLoop endS endT (n + 1) s2 t2 (hk.append l) rest

/-- Models `PatchedFile::parse_hunk`: parses the hunk header (missing length
captures default to the string `"0"`, hence numeric `0`), runs the consuming
loop on the remaining diff lines (whose first diff index is `n`), and pushes
the resulting hunk.  The `none` branch of the header match models the
`unwrap` panic of the source; it is unreachable from `PatchSet.parse`, which
only calls this under the same successful match. -/
def PatchedFile.parse_hunk (pf : PatchedFile) (header : Str) (n : Nat)
    (diffRest : List Str) : Except Error PatchedFile :=
  match parseHunkHeader header with
  | none => .error (.ExpectLine header)
  | some (ss, slo, ts, tlo, sec) =>
    let sl := slo.getD 0
    let tl := tlo.getD 0
    let hk0 : Hunk := ⟨0, 0, ss, sl, ts, tl, sec, []⟩
    match parseHunkLoop (ss + sl) (ts + tl) n ss ts hk0 diffRest with
    | .error e => .error e
    | .ok hk => .ok { pf with hunks := pf.hunks ++ [hk] }

/-- Result of a whole parse: the final file list, a typed error, or the
`unwrap` panic raised when a target header is seen before any source
header. -/
inductive ParseOutcome where
  | ok (files : List PatchedFile)
  | err (e : Error)
  | fatal
deriving DecidableEq

/-- Result of dispatching one input line of the top-level loop: continue with
an updated state, abort with a typed error, or hit the `unwrap` panic. -/
inductive StepRes where
  | cont (files : List PatchedFile) (cur : Option PatchedFile) (srcF srcT : Option Str)
  | fail (e : Error)
  | dead
deriving DecidableEq

/-- One line of the top-level loop of `PatchSet::parse`, with `n` the index
of `line` and `rest` the lines after it.  A source header finalizes any
pending file and records the new source name and timestamp; a target header
with a file already pending is a `TargetWithoutSource` failure, and with no
recorded source name it is the `unwrap` panic; a hunk header with no pending
file is an `UnexpectedHunk` failure, otherwise hunk parsing is delegated on
the lines after the header; all other lines are ignored. -/
def parseLineStep (files : List PatchedFile) (cur : Option PatchedFile)
    (srcF srcT : Option Str) (n : Nat) (line : Str) (rest : List Str) : StepRes :=
  match matchFileHeader "--- ".data line with
  | some (fn, tso) => .cont (files ++ cur.toList) none (some fn) (some (tso.getD []))
  | none =>
    match matchFileHeader "+++ ".data line with
    | some (fn, tso) =>
      match cur with
      | some _ => .fail (.TargetWithoutSource line)
      | none =>
        match srcF with
        | none => .dead
        | some sf => .cont files (some ⟨sf, srcT, fn, some (tso.getD []), []⟩) srcF srcT
    | none =>
      if (parseHunkHeader line).isSome then
        match cur with
        | some pf =>
          match pf.parse_hunk line (n + 1) rest with
          | .ok pf2 => .cont files (some pf2) srcF srcT
          | .error e => .fail e
        | none => .fail (.UnexpectedHunk line)
      else .cont files cur srcF srcT

/-- The top-level loop of `PatchSet::parse`, one `parseLineStep` per input
line.  At end of input a pending file is finalized. -/
def parseMain : List PatchedFile → Option PatchedFile → Option Str → Option Str →
    Nat → List Str → ParseOutcome
  | files, cur, _, _, _, [] => .ok (files ++ cur.toList)
  | files, cur, srcF, srcT, n, line :: rest =>
    match parseLineStep files cur srcF srcT n line rest with
    | .cont f2 c2 sf2 st2 => parseMain f2 c2 sf2 st2 (n + 1) rest
    | .fail e => .err e
    | .dead => .fatal

/-- Strips one trailing carriage return, as `str::lines` does on a line that
was terminated by a newline. -/
def stripCR (l : Str) : Str :=
  match l.getLast? with
  | some '\r' => l.dropLast
  | _ => l

/-- Worker for `rustLines`: `acc` holds the characters of the current line in
reverse. -/
def rustLinesGo : Str → Str → List Str
  | acc, [] => if acc = [] then [] else [acc.reverse]
  | acc, c :: rest =>
    if c = '\n' then stripCR acc.reverse :: rustLinesGo [] rest
    else rustLinesGo (c :: acc) rest

/-- Models Rust `str::lines`: splits at newlines, strips a carriage return
preceding each newline, and drops a final empty segment. -/
def rustLines (s : Str) : List Str := rustLinesGo [] s

/-- Models `PatchSet::parse` run on a patch set whose current file list is
`files` (an empty list for a fresh `PatchSet`). -/
def PatchSet.parse (files : List PatchedFile) (input : Str) : ParseOutcome :=
  parseMain files none none none 0 (rustLines input)

/-- The one-character marker written in front of a line's value by the
`Display` instance of `LineType`; an `Empty` line's marker is a literal
newline character. -/
def LineType.marker : LineType → Str
  | .Added => "+".data
  | .Removed => "-".data
  | .Context => " ".data
  | .Empty => "\n".data

/-- Models the `Display` instance of `Line`. -/
def renderLine (l : Line) : Str := l.line_type.marker ++ l.value

/-- Joins pieces of text with newline separators, as `Vec::join("\n")`. -/
def joinNl : List Str → Str
  | [] => []
  | [x] => x
  | x :: y :: xs => x ++ '\n' :: joinNl (y :: xs)

/-- The header line written by the `Display` instance of `Hunk` (note the
space between `@@` and the section header). -/
def hunkHeaderLine (h : Hunk) : Str :=
  "@@ -".data ++ natDigits h.source_start ++ [','] ++ natDigits h.source_length ++
  " +".data ++ natDigits h.target_start ++ [','] ++ natDigits h.target_length ++
  " @@ ".data ++ h.section_header

/-- Models the `Display` instance of `Hunk`. -/
def renderHunk (h : Hunk) : Str :=
  hunkHeaderLine h ++ '\n' :: joinNl (h.lines.map renderLine)

/-- Models the `Display` instance of `PatchedFile`. -/
def renderFile (f : PatchedFile) : Str :=
  "--- ".data ++ f.source_file ++ '\n' :: "+++ ".data ++ f.target_file ++
  '\n' :: joinNl (f.hunks.map renderHunk)

/-- Models the `Display` instance of `PatchSet`. -/
def renderPS (files : List PatchedFile) : Str := joinNl (files.map renderFile)

/-- The observable per-file statistics compared by the round-trip claim. -/
def fileStats (pf : PatchedFile) : Nat × Nat := (pf.added, pf.removed)

/-- Count of `Added` lines in a list. -/
def countAdded (ls : List Line) : Nat := (ls.filter fun l => l.line_type = LineType.Added).length

/-- Count of `Removed` lines in a list. -/
def countRemoved (ls : List Line) : Nat := (ls.filter fun l => l.line_type = LineType.Removed).length

/-- Replays the cursor movement of a hunk's stored line types and checks that
the hunk's stopping condition is first satisfied exactly after the last
line: on re-parse the hunk consumes exactly its own printed body lines. -/
def exactReplay (endS endT : Nat) : Nat → Nat → List LineType → Bool
  | _, _, [] => false
  | s, t, lt :: rest =>
    let st2 := ltStep s t lt
    if st2.1 ≥ endS ∧ st2.2 ≥ endT then rest.isEmpty
    else exactReplay endS endT st2.1 st2.2 rest

/-- Text that the round-trip development may embed in a line of output: no
newline and no carriage return. -/
def cleanStr (s : Str) : Bool := s.all fun c => !(c == '\n') && !(c == '\r')

/-- A body line that round-trips: not an `Empty` line, clean value, and its
printed form is not mistakable for a file header by the top-level loop. -/
def goodLine (l : Line) : Bool :=
  l.line_type ≠ LineType.Empty &&
  cleanStr l.value &&
  (l.line_type ≠ LineType.Removed || (dropLit "-- ".data l.value).isNone) &&
  (l.line_type ≠ LineType.Added || (dropLit "++ ".data l.value).isNone)

/-- A hunk that round-trips: at least one line, all lines good, counters
consistent with the stored lines, clean section header, and the stopping
condition replays exactly at the end of the stored lines. -/
def goodHunk (h : Hunk) : Bool :=
  !h.lines.isEmpty &&
  h.lines.all goodLine &&
  h.added = countAdded h.lines &&
  h.removed = countRemoved h.lines &&
  cleanStr h.section_header &&
  exactReplay (h.source_start + h.source_length) (h.target_start + h.target_length)
    h.source_start h.target_start (h.lines.map Line.line_type)

/-- A file name that round-trips: nonempty, no tab, clean. -/
def goodName (s : Str) : Bool := !s.isEmpty && cleanStr s && s.all (fun c => !(c == '\t'))

/-- A file that round-trips: good names, at least one hunk, all hunks good. -/
def goodFile (f : PatchedFile) : Bool :=
  goodName f.source_file && goodName f.target_file && !f.hunks.isEmpty && f.hunks.all goodHunk

/-- A patch set that round-trips. -/
def goodPS (files : List PatchedFile) : Bool := files.all goodFile

/-- The individual text lines produced by the `Display` form of a hunk. -/
def hunkLines (h : Hunk) : List Str := hunkHeaderLine h :: h.lines.map renderLine

/-- The individual text lines produced by the `Display` form of a file with
at least one hunk. -/
def fileLines (f : PatchedFile) : List Str :=
  ("--- ".data ++ f.source_file) :: ("+++ ".data ++ f.target_file) :: (f.hunks.map hunkLines).flatten

/-- The individual text lines produced by the `Display` form of a patch set
all of whose files have at least one hunk. -/
def psLines (files : List PatchedFile) : List Str := (files.map fileLines).flatten

end Unidiff

namespace Unidiff

theorem dropLit_append (p s : Str) : dropLit p (p ++ s) = some s := by
  induction p with
  | nil => rfl
  | cons c ps ih => simp [dropLit, ih]

theorem dropLit_eq_some : ∀ {p s r : Str}, dropLit p s = some r → s = p ++ r := by
  intro p
  induction p with
  | nil => intro s r h; simpa [dropLit] using h
  | cons c ps ih =>
    intro s r h
    cases s with
    | nil => simp [dropLit] at h
    | cons d ds =>
      by_cases hc : c = d
      · subst hc
        simp only [dropLit, if_pos rfl] at h
        simpa using ih h
      · simp [dropLit, hc] at h

theorem takeWhile_all {α : Type} {p : α → Bool} :
    ∀ {l : List α}, (∀ c ∈ l, p c = true) → l.takeWhile p = l := by
  intro l
  induction l with
  | nil => intro _; rfl
  | cons a t ih =>
    intro h
    simp [List.takeWhile, h a (by simp), ih fun c hc => h c (by simp [hc])]

theorem dropWhile_all {α : Type} {p : α → Bool} :
    ∀ {l : List α}, (∀ c ∈ l, p c = true) → l.dropWhile p = [] := by
  intro l
  induction l with
  | nil => intro _; rfl
  | cons a t ih =>
    intro h
    simp [List.dropWhile, h a (by simp), ih fun c hc => h c (by simp [hc])]

theorem takeWhile_app {α : Type} {p : α → Bool} :
    ∀ {a : List α}, (∀ c ∈ a, p c = true) → ∀ {b : α}, p b = false → ∀ (r : List α),
      (a ++ b :: r).takeWhile p = a := by
  intro a
  induction a with
  | nil => intro _ b hb r; simp [List.takeWhile, hb]
  | cons x t ih =>
    intro h b hb r
    simp [List.takeWhile, h x (by simp), ih (fun c hc => h c (by simp [hc])) hb r]

theorem dropWhile_app {α : Type} {p : α → Bool} :
    ∀ {a : List α}, (∀ c ∈ a, p c = true) → ∀ {b : α}, p b = false → ∀ (r : List α),
      (a ++ b :: r).dropWhile p = b :: r := by
  intro a
  induction a with
  | nil => intro _ b hb r; simp [List.dropWhile, hb]
  | cons x t ih =>
    intro h b hb r
    simp [List.dropWhile, h x (by simp), ih (fun c hc => h c (by simp [hc])) hb r]

theorem nlTrunc_eq {s : Str} (h : ∀ c ∈ s, c ≠ '\n') : nlTrunc s = s := by
  refine takeWhile_all ?_
  intro c hc
  simpa using h c hc

end Unidiff

namespace Unidiff

theorem digitChar_val {d : Nat} (h : d < 10) : digitVal (digitChar d) = d := by
  interval_cases d <;> decide

theorem digitChar_isDig {d : Nat} (h : d < 10) : isDig (digitChar d) = true := by
  interval_cases d <;> decide

theorem natOfDigits_append (xs : Str) : ∀ (ys : Str) (a : Nat),
    natOfDigits a (xs ++ ys) = natOfDigits (natOfDigits a xs) ys := by
  induction xs with
  | nil => intro ys a; rfl
  | cons c t ih =>
    intro ys a
    rw [List.cons_append]
    show natOfDigits (a * 10 + digitVal c) (t ++ ys) = _
    rw [ih]
    rfl

theorem natDigitsGo_acc (fuel : Nat) : ∀ (n : Nat) (acc : Str),
    natDigitsGo fuel n acc = natDigitsGo fuel n [] ++ acc := by
  induction fuel with
  | zero => intro n acc; simp [natDigitsGo]
  | succ f ih =>
    intro n acc
    by_cases hn : n = 0
    · simp [natDigitsGo, hn]
    · rw [natDigitsGo, natDigitsGo, if_neg hn, if_neg hn, ih (n / 10),
        ih (n / 10) [digitChar (n % 10)]]
      simp

theorem natOfDigits_go : ∀ (n : Nat), ∀ fuel, n ≤ fuel →
    natOfDigits 0 (natDigitsGo fuel n []) = n := by
  intro n
  induction n using Nat.strong_induction_on with
  | _ n ih =>
    intro fuel hf
    cases fuel with
    | zero =>
      have hz : n = 0 := Nat.le_zero.mp hf
      subst hz
      rfl
    | succ f =>
      by_cases hn : n = 0
      · subst hn; rfl
      · rw [natDigitsGo, if_neg hn, natDigitsGo_acc, natOfDigits_append]
        have hlt : n / 10 < n := Nat.div_lt_self (Nat.pos_of_ne_zero hn) (by decide)
        rw [ih (n / 10) hlt f (by omega)]
        show natOfDigits (n / 10 * 10 + digitVal (digitChar (n % 10))) [] = n
        rw [digitChar_val (Nat.mod_lt n (by decide))]
        show n / 10 * 10 + n % 10 = n
        omega

theorem natOfDigits_natDigits (n : Nat) : natOfDigits 0 (natDigits n) = n := by
  by_cases hn : n = 0
  · subst hn; decide
  · rw [natDigits, if_neg hn]
    exact natOfDigits_go n (n + 1) (by omega)

theorem natDigitsGo_isDig (fuel : Nat) : ∀ (n : Nat) (acc : Str),
    (∀ c ∈ acc, isDig c = true) → ∀ c ∈ natDigitsGo fuel n acc, isDig c = true := by
  induction fuel with
  | zero => intro n acc hacc; simpa [natDigitsGo] using hacc
  | succ f ih =>
    intro n acc hacc c hc
    by_cases hn : n = 0
    · rw [natDigitsGo, if_pos hn] at hc; exact hacc c hc
    · rw [natDigitsGo, if_neg hn] at hc
      refine ih (n / 10) _ ?_ c hc
      intro d hd
      rcases List.mem_cons.mp hd with h | h
      · subst h; exact digitChar_isDig (Nat.mod_lt n (by decide))
      · exact hacc d h

theorem natDigits_isDig {n : Nat} : ∀ c ∈ natDigits n, isDig c = true := by
  by_cases hn : n = 0
  · simp [hn, natDigits]; decide
  · rw [natDigits, if_neg hn]
    exact natDigitsGo_isDig (n + 1) n [] (by simp)

theorem natDigits_ne_nil (n : Nat) : natDigits n ≠ [] := by
  by_cases hn : n = 0
  · simp [hn, natDigits]
  · rw [natDigits, if_neg hn, natDigitsGo, if_neg hn, natDigitsGo_acc]
    simp

theorem isDig_props {c : Char} (h : isDig c = true) :
    c ≠ ',' ∧ c ≠ ' ' ∧ c ≠ '\n' ∧ c ≠ '\r' ∧ c ≠ '\t' ∧ c ≠ '@' := by
  simp only [isDig, Bool.or_eq_true, beq_iff_eq] at h
  rcases h with (((((((((h | h) | h) | h) | h) | h) | h) | h) | h) | h) <;> subst h <;> decide

end Unidiff

namespace Unidiff

theorem ne_nil_isEmpty {α : Type} {l : List α} (h : l ≠ []) : l.isEmpty = false := by
  simp [h]

theorem data_hh : "@@ -".data = '@' :: '@' :: ' ' :: '-' :: [] := rfl

theorem data_plus : " +".data = ' ' :: '+' :: [] := rfl

theorem data_atat : " @@".data = ' ' :: '@' :: '@' :: [] := rfl

theorem data_atat_sp : " @@ ".data = ' ' :: '@' :: '@' :: ' ' :: [] := rfl

theorem data_src : "--- ".data = '-' :: '-' :: '-' :: ' ' :: [] := rfl

theorem data_tgt : "+++ ".data = '+' :: '+' :: '+' :: ' ' :: [] := rfl

theorem parseNumPair_nolen (a : Nat) {c : Char} (hc : isDig c = false) (hcc : c ≠ ',')
    (r : Str) : parseNumPair (natDigits a ++ c :: r) = some (a, none, c :: r) := by
  have hall : ∀ d ∈ natDigits a, isDig d = true := natDigits_isDig
  unfold parseNumPair
  rw [takeWhile_app hall hc, dropWhile_app hall hc, ne_nil_isEmpty (natDigits_ne_nil a),
    if_neg Bool.false_ne_true, natOfDigits_natDigits]
  split
  · rename_i r2 heq
    exact absurd (List.cons.inj heq).1 hcc
  · rfl

theorem parseNumPair_len (a b : Nat) {c : Char} (hc : isDig c = false) (r : Str) :
    parseNumPair (natDigits a ++ ',' :: (natDigits b ++ c :: r)) = some (a, some b, c :: r) := by
  have hall : ∀ d ∈ natDigits a, isDig d = true := natDigits_isDig
  have hallb : ∀ d ∈ natDigits b, isDig d = true := natDigits_isDig
  unfold parseNumPair
  rw [takeWhile_app hall (by decide), dropWhile_app hall (by decide),
    ne_nil_isEmpty (natDigits_ne_nil a), if_neg Bool.false_ne_true, natOfDigits_natDigits]
  split
  · rename_i r2 heq
    obtain ⟨-, h2⟩ := List.cons.inj heq
    subst h2
    rw [takeWhile_app hallb hc, dropWhile_app hallb hc, ne_nil_isEmpty (natDigits_ne_nil b),
      if_neg Bool.false_ne_true, natOfDigits_natDigits]
  · rename_i hno
    exact absurd rfl (hno (natDigits b ++ c :: r))

end Unidiff

namespace Unidiff

theorem parseHunkHeader_render (h : Hunk) (hsec : ∀ c ∈ h.section_header, c ≠ '\n') :
    parseHunkHeader (hunkHeaderLine h) =
      some (h.source_start, some h.source_length, h.target_start, some h.target_length,
        h.section_header) := by
  unfold hunkHeaderLine parseHunkHeader
  simp only [data_hh, data_plus, data_atat, data_atat_sp, List.append_assoc,
    List.cons_append, List.singleton_append, List.nil_append]
  simp only [dropLit, reduceIte]
  rw [parseNumPair_len h.source_start h.source_length (by decide)]
  simp only [dropLit, reduceIte]
  rw [parseNumPair_len h.target_start h.target_length (by decide)]
  simp only [dropLit, reduceIte]
  rw [nlTrunc_eq hsec]

end Unidiff

namespace Unidiff

theorem data_dd : "-- ".data = '-' :: '-' :: ' ' :: [] := rfl

theorem data_pp : "++ ".data = '+' :: '+' :: ' ' :: [] := rfl

theorem cleanStr_spec {s : Str} (h : cleanStr s = true) : ∀ c ∈ s, c ≠ '\n' ∧ c ≠ '\r' := by
  intro c hc
  have hcp := (List.all_eq_true.mp h) c hc
  constructor <;> intro e <;> subst e <;> simp at hcp

theorem goodName_spec {s : Str} (h : goodName s = true) :
    s ≠ [] ∧ ∀ c ∈ s, c ≠ '\n' ∧ c ≠ '\r' ∧ c ≠ '\t' := by
  simp only [goodName, Bool.and_eq_true] at h
  obtain ⟨⟨hne, hcl⟩, htab⟩ := h
  refine ⟨by simpa using hne, ?_⟩
  intro c hc
  have h1 := cleanStr_spec hcl c hc
  have h2 := (List.all_eq_true.mp htab) c hc
  refine ⟨h1.1, h1.2, ?_⟩
  intro e; subst e; simp at h2

theorem goodLine_spec {l : Line} (h : goodLine l = true) :
    l.line_type ≠ LineType.Empty ∧ (∀ c ∈ l.value, c ≠ '\n' ∧ c ≠ '\r')
      ∧ (l.line_type = LineType.Removed → dropLit "-- ".data l.value = none)
      ∧ (l.line_type = LineType.Added → dropLit "++ ".data l.value = none) := by
  simp only [goodLine, Bool.and_eq_true, Bool.or_eq_true, decide_eq_true_eq,
    Option.isNone_iff_eq_none] at h
  obtain ⟨⟨⟨hemp, hcl⟩, hrm⟩, had⟩ := h
  refine ⟨hemp, cleanStr_spec hcl, ?_, ?_⟩
  · intro he
    rcases hrm with hrm | hrm
    · exact absurd he hrm
    · exact hrm
  · intro he
    rcases had with had | had
    · exact absurd he had
    · exact had

theorem matchFileHeader_none {marker line : Str} (h : dropLit marker line = none) :
    matchFileHeader marker line = none := by
  unfold matchFileHeader
  rw [h]

theorem parseHunkHeader_none {line : Str} (h : dropLit "@@ -".data line = none) :
    parseHunkHeader line = none := by
  unfold parseHunkHeader
  rw [h]

theorem dropLit_head_ne {p c : Char} {ps : Str} (h : p ≠ c) (v : Str) :
    dropLit (p :: ps) (c :: v) = none := by
  simp [dropLit, h]

theorem dropLit_src_dash {v : Str} (hv : dropLit "-- ".data v = none) :
    dropLit "--- ".data ('-' :: v) = none := by
  rw [data_dd] at hv
  rw [data_src]
  simpa [dropLit] using hv

theorem dropLit_tgt_plus {v : Str} (hv : dropLit "++ ".data v = none) :
    dropLit "+++ ".data ('+' :: v) = none := by
  rw [data_pp] at hv
  rw [data_tgt]
  simpa [dropLit] using hv

end Unidiff

namespace Unidiff

theorem classify_renderLine {l : Line} (h : goodLine l = true) :
    classifyBodyLine (renderLine l) = .ok (l.line_type, l.value) := by
  obtain ⟨hemp, hclean, -, -⟩ := goodLine_spec h
  have hnl : ∀ c ∈ l.value, c ≠ '\n' := fun c hc => (hclean c hc).1
  cases hlt : l.line_type with
  | Added => simp [renderLine, LineType.marker, hlt, classifyBodyLine, nlTrunc_eq hnl]
  | Removed => simp [renderLine, LineType.marker, hlt, classifyBodyLine, nlTrunc_eq hnl]
  | Context => simp [renderLine, LineType.marker, hlt, classifyBodyLine, nlTrunc_eq hnl]
  | Empty => exact absurd hlt hemp

theorem inert_renderLine {l : Line} (h : goodLine l = true) :
    matchFileHeader "--- ".data (renderLine l) = none
      ∧ matchFileHeader "+++ ".data (renderLine l) = none
      ∧ parseHunkHeader (renderLine l) = none := by
  obtain ⟨hemp, -, hrm, had⟩ := goodLine_spec h
  cases hlt : l.line_type with
  | Added =>
    have hr : renderLine l = '+' :: l.value := by simp [renderLine, LineType.marker, hlt]
    rw [hr]
    refine ⟨matchFileHeader_none ?_, matchFileHeader_none (dropLit_tgt_plus (had hlt)),
      parseHunkHeader_none ?_⟩
    · rw [data_src]
      exact dropLit_head_ne (by decide) _
    · rw [data_hh]
      exact dropLit_head_ne (by decide) _
  | Removed =>
    have hr : renderLine l = '-' :: l.value := by simp [renderLine, LineType.marker, hlt]
    rw [hr]
    refine ⟨matchFileHeader_none (dropLit_src_dash (hrm hlt)), matchFileHeader_none ?_,
      parseHunkHeader_none ?_⟩
    · rw [data_tgt]
      exact dropLit_head_ne (by decide) _
    · rw [data_hh]
      exact dropLit_head_ne (by decide) _
  | Context =>
    have hr : renderLine l = ' ' :: l.value := by simp [renderLine, LineType.marker, hlt]
    rw [hr]
    refine ⟨matchFileHeader_none ?_, matchFileHeader_none ?_, parseHunkHeader_none ?_⟩
    · rw [data_src]
      exact dropLit_head_ne (by decide) _
    · rw [data_tgt]
      exact dropLit_head_ne (by decide) _
    · rw [data_hh]
      exact dropLit_head_ne (by decide) _
  | Empty => exact absurd hlt hemp

end Unidiff

namespace Unidiff

theorem parseMain_cons (files : List PatchedFile) (cur : Option PatchedFile)
    (srcF srcT : Option Str) (n : Nat) (line : Str) (rest : List Str) :
    parseMain files cur srcF srcT n (line :: rest)
      = match parseLineStep files cur srcF srcT n line rest with
        | .cont f2 c2 sf2 st2 => parseMain f2 c2 sf2 st2 (n + 1) rest
        | .fail e => .err e
        | .dead => .fatal := rfl

theorem parseLineStep_skip {line : Str} (h1 : matchFileHeader "--- ".data line = none)
    (h2 : matchFileHeader "+++ ".data line = none) (h3 : parseHunkHeader line = none)
    (files : List PatchedFile) (cur : Option PatchedFile) (srcF srcT : Option Str)
    (n : Nat) (rest : List Str) :
    parseLineStep files cur srcF srcT n line rest = .cont files cur srcF srcT := by
  unfold parseLineStep
  rw [h1, h2, h3]
  simp

theorem parseMain_skip {line : Str} (h1 : matchFileHeader "--- ".data line = none)
    (h2 : matchFileHeader "+++ ".data line = none) (h3 : parseHunkHeader line = none)
    (files : List PatchedFile) (cur : Option PatchedFile) (srcF srcT : Option Str)
    (n : Nat) (rest : List Str) :
    parseMain files cur srcF srcT n (line :: rest)
      = parseMain files cur srcF srcT (n + 1) rest := by
  rw [parseMain_cons, parseLineStep_skip h1 h2 h3]

theorem parseMain_skipAll {ls : List Str}
    (h : ∀ line ∈ ls, matchFileHeader "--- ".data line = none
      ∧ matchFileHeader "+++ ".data line = none ∧ parseHunkHeader line = none) :
    ∀ (files : List PatchedFile) (cur : Option PatchedFile) (srcF srcT : Option Str)
      (n : Nat) (rest : List Str),
      ∃ m, parseMain files cur srcF srcT n (ls ++ rest) = parseMain files cur srcF srcT m rest := by
  induction ls with
  | nil => intro files cur srcF srcT n rest; exact ⟨n, rfl⟩
  | cons x t ih =>
    intro files cur srcF srcT n rest
    have hx := h x (by simp)
    rw [List.cons_append, parseMain_skip hx.1 hx.2.1 hx.2.2]
    exact ih (fun l hl => h l (by simp [hl])) files cur srcF srcT (n + 1) rest

theorem Hunk_append_added (h : Hunk) (l : Line) :
    (h.append l).added = h.added + (if l.line_type = LineType.Added then 1 else 0) := by
  unfold Hunk.append
  by_cases ha : l.line_type = LineType.Added
  · simp [Line.is_added, ha]
  · by_cases hr : l.line_type = LineType.Removed <;>
      simp [Line.is_added, Line.is_removed, ha, hr]

theorem Hunk_append_removed (h : Hunk) (l : Line) :
    (h.append l).removed = h.removed + (if l.line_type = LineType.Removed then 1 else 0) := by
  unfold Hunk.append
  by_cases ha : l.line_type = LineType.Added
  · simp only [Line.is_added, ha]
    simp [ha]
  · by_cases hr : l.line_type = LineType.Removed <;>
      simp [Line.is_added, Line.is_removed, ha, hr]

theorem countAdded_cons (l : Line) (ls : List Line) :
    countAdded (l :: ls) = (if l.line_type = LineType.Added then 1 else 0) + countAdded ls := by
  unfold countAdded
  by_cases ha : l.line_type = LineType.Added <;> simp [ha, List.filter, Nat.add_comm]

theorem countRemoved_cons (l : Line) (ls : List Line) :
    countRemoved (l :: ls) = (if l.line_type = LineType.Removed then 1 else 0) + countRemoved ls := by
  unfold countRemoved
  by_cases ha : l.line_type = LineType.Removed <;> simp [ha, List.filter, Nat.add_comm]

end Unidiff

namespace Unidiff

theorem countAdded_nil : countAdded [] = 0 := rfl

theorem countRemoved_nil : countRemoved [] = 0 := rfl

theorem mkBodyLine_type (n s t : Nat) (lt : LineType) (v : Str) :
    (mkBodyLine n s t lt v).line_type = lt := by
  cases lt <;> rfl

theorem hunkLineStep_good {l : Line} (h : goodLine l = true) (endS endT n s t : Nat) :
    hunkLineStep endS endT n s t (renderLine l)
      = .push (mkBodyLine n s t l.line_type l.value) (ltStep s t l.line_type).1
          (ltStep s t l.line_type).2
          (decide ((ltStep s t l.line_type).1 ≥ endS ∧ (ltStep s t l.line_type).2 ≥ endT)) := by
  unfold hunkLineStep
  rw [classify_renderLine h]

theorem parseHunkLoop_render (endS endT : Nat) :
    ∀ (ls : List Line), (∀ l ∈ ls, goodLine l = true) →
      ∀ (n s t : Nat) (hk : Hunk) (rest : List Str),
      exactReplay endS endT s t (ls.map Line.line_type) = true →
      ∃ hk2, parseHunkLoop endS endT n s t hk (ls.map renderLine ++ rest) = .ok hk2
        ∧ hk2.added = hk.added + countAdded ls
        ∧ hk2.removed = hk.removed + countRemoved ls := by
  intro ls
  induction ls with
  | nil =>
    intro hg n s t hk rest hr
    simp [exactReplay] at hr
  | cons l ls ih =>
    intro hg n s t hk rest hr
    have hl := hg l (by simp)
    rw [List.map_cons, List.cons_append, parseHunkLoop, hunkLineStep_good hl]
    rw [List.map_cons, exactReplay] at hr
    by_cases hstop : (ltStep s t l.line_type).1 ≥ endS ∧ (ltStep s t l.line_type).2 ≥ endT
    · rw [if_pos hstop] at hr
      have hnil : ls = [] := by
        have := List.isEmpty_iff.mp hr
        exact List.map_eq_nil_iff.mp this
      subst hnil
      refine ⟨hk.append (mkBodyLine n s t l.line_type l.value), ?_, ?_, ?_⟩
      · simp [hstop]
      · rw [Hunk_append_added, mkBodyLine_type, countAdded_cons, countAdded_nil]
        omega
      · rw [Hunk_append_removed, mkBodyLine_type, countRemoved_cons, countRemoved_nil]
        omega
    · rw [if_neg hstop] at hr
      have hrec := ih (fun x hx => hg x (by simp [hx])) (n + 1) (ltStep s t l.line_type).1
        (ltStep s t l.line_type).2 (hk.append (mkBodyLine n s t l.line_type l.value)) rest hr
      obtain ⟨hk2, heq, hadd, hrem⟩ := hrec
      refine ⟨hk2, ?_, ?_, ?_⟩
      · simp only [decide_eq_true_eq]
        rw [if_neg (by simpa using hstop)]
        exact heq
      · rw [hadd, Hunk_append_added, mkBodyLine_type, countAdded_cons]
        omega
      · rw [hrem, Hunk_append_removed, mkBodyLine_type, countRemoved_cons]
        omega

end Unidiff

namespace Unidiff

theorem goodHunk_spec {h : Hunk} (hg : goodHunk h = true) :
    h.lines ≠ [] ∧ (∀ l ∈ h.lines, goodLine l = true)
      ∧ h.added = countAdded h.lines ∧ h.removed = countRemoved h.lines
      ∧ (∀ c ∈ h.section_header, c ≠ '\n' ∧ c ≠ '\r')
      ∧ exactReplay (h.source_start + h.source_length) (h.target_start + h.target_length)
          h.source_start h.target_start (h.lines.map Line.line_type) = true := by
  simp only [goodHunk, Bool.and_eq_true, List.all_eq_true, decide_eq_true_eq,
    Bool.not_eq_true'] at hg
  obtain ⟨⟨⟨⟨⟨hne, hall⟩, hadd⟩, hrem⟩, hsec⟩, hrep⟩ := hg
  exact ⟨by simpa using hne, hall, hadd, hrem, cleanStr_spec hsec, hrep⟩

theorem parse_hunk_render {h : Hunk} (hg : goodHunk h = true) (pf : PatchedFile) (n : Nat)
    (rest : List Str) :
    ∃ hk2, pf.parse_hunk (hunkHeaderLine h) n (h.lines.map renderLine ++ rest)
        = .ok { pf with hunks := pf.hunks ++ [hk2] }
      ∧ hk2.added = h.added ∧ hk2.removed = h.removed := by
  obtain ⟨hne, hall, hadd, hrem, hsec, hrep⟩ := goodHunk_spec hg
  unfold PatchedFile.parse_hunk
  rw [parseHunkHeader_render h (fun c hc => (hsec c hc).1)]
  obtain ⟨hk2, heq, ha2, hr2⟩ := parseHunkLoop_render
    (h.source_start + h.source_length) (h.target_start + h.target_length) h.lines hall n
    h.source_start h.target_start
    ⟨0, 0, h.source_start, h.source_length, h.target_start, h.target_length, h.section_header, []⟩
    rest hrep
  simp only [Option.getD_some]
  rw [heq]
  refine ⟨hk2, rfl, ?_, ?_⟩
  · rw [ha2, hadd]
    simp
  · rw [hr2, hrem]
    simp

theorem inert_hunkHeaderLine_src (h : Hunk) :
    matchFileHeader "--- ".data (hunkHeaderLine h) = none := by
  refine matchFileHeader_none ?_
  rw [data_src]
  unfold hunkHeaderLine
  rw [data_hh]
  simp only [List.append_assoc, List.cons_append, List.nil_append]
  exact dropLit_head_ne (by decide) _

theorem inert_hunkHeaderLine_tgt (h : Hunk) :
    matchFileHeader "+++ ".data (hunkHeaderLine h) = none := by
  refine matchFileHeader_none ?_
  rw [data_tgt]
  unfold hunkHeaderLine
  rw [data_hh]
  simp only [List.append_assoc, List.cons_append, List.nil_append]
  exact dropLit_head_ne (by decide) _

theorem parseLineStep_hunkheader {line : Str} (h1 : matchFileHeader "--- ".data line = none)
    (h2 : matchFileHeader "+++ ".data line = none) (h3 : (parseHunkHeader line).isSome = true)
    (files : List PatchedFile) (pf : PatchedFile) (srcF srcT : Option Str) (n : Nat)
    (rest : List Str) :
    parseLineStep files (some pf) srcF srcT n line rest
      = match pf.parse_hunk line (n + 1) rest with
        | .ok pf2 => .cont files (some pf2) srcF srcT
        | .error e => .fail e := by
  unfold parseLineStep
  rw [h1, h2, h3]
  simp

theorem scan_hunk {h : Hunk} (hg : goodHunk h = true) (files : List PatchedFile)
    (pf : PatchedFile) (srcF srcT : Option Str) (n : Nat) (rest : List Str) :
    ∃ hk2 m, hk2.added = h.added ∧ hk2.removed = h.removed ∧
      parseMain files (some pf) srcF srcT n (hunkLines h ++ rest)
        = parseMain files (some { pf with hunks := pf.hunks ++ [hk2] }) srcF srcT m rest := by
  obtain ⟨hk2, hph, ha, hr⟩ := parse_hunk_render hg pf (n + 1) rest
  have hhs : (parseHunkHeader (hunkHeaderLine h)).isSome = true := by
    rw [parseHunkHeader_render h (fun c hc => ((goodHunk_spec hg).2.2.2.2.1 c hc).1)]
    rfl
  have hinterior : ∀ line ∈ h.lines.map renderLine,
      matchFileHeader "--- ".data line = none ∧ matchFileHeader "+++ ".data line = none
        ∧ parseHunkHeader line = none := by
    intro line hline
    obtain ⟨l, hl, rfl⟩ := List.mem_map.mp hline
    exact inert_renderLine ((goodHunk_spec hg).2.1 l hl)
  unfold hunkLines
  rw [List.cons_append, parseMain_cons,
    parseLineStep_hunkheader (inert_hunkHeaderLine_src h) (inert_hunkHeaderLine_tgt h) hhs,
    hph]
  obtain ⟨m, hm⟩ := parseMain_skipAll hinterior files
    (some { pf with hunks := pf.hunks ++ [hk2] }) srcF srcT (n + 1) rest
  exact ⟨hk2, m, ha, hr, hm⟩

end Unidiff

namespace Unidiff

theorem scan_hunks : ∀ (hs : List Hunk), (∀ x ∈ hs, goodHunk x = true) →
    ∀ (files : List PatchedFile) (pf : PatchedFile) (srcF srcT : Option Str) (n : Nat)
      (rest : List Str),
    ∃ pf2 m, pf2.hunks.map Hunk.added = pf.hunks.map Hunk.added ++ hs.map Hunk.added
      ∧ pf2.hunks.map Hunk.removed = pf.hunks.map Hunk.removed ++ hs.map Hunk.removed
      ∧ parseMain files (some pf) srcF srcT n ((hs.map hunkLines).flatten ++ rest)
        = parseMain files (some pf2) srcF srcT m rest := by
  intro hs
  induction hs with
  | nil =>
    intro hg files pf srcF srcT n rest
    exact ⟨pf, n, by simp, by simp, by simp⟩
  | cons h hs ih =>
    intro hg files pf srcF srcT n rest
    simp only [List.map_cons, List.flatten_cons, List.append_assoc]
    obtain ⟨hk2, m, ha, hr, heq⟩ := scan_hunk (hg h (by simp)) files pf srcF srcT n
      ((hs.map hunkLines).flatten ++ rest)
    rw [heq]
    obtain ⟨pf2, m2, h1, h2, h3⟩ := ih (fun x hx => hg x (by simp [hx])) files
      { pf with hunks := pf.hunks ++ [hk2] } srcF srcT m rest
    refine ⟨pf2, m2, ?_, ?_, h3⟩
    · rw [h1]
      simp [ha]
    · rw [h2]
      simp [hr]

theorem matchFileHeader_self {marker s : Str} (hne : s ≠ [])
    (hclean : ∀ c ∈ s, c ≠ '\t' ∧ c ≠ '\n') :
    matchFileHeader marker (marker ++ s) = some (s, none) := by
  unfold matchFileHeader
  rw [dropLit_append]
  have hall : ∀ c ∈ s, notTabNl c = true := by
    intro c hc
    have hcc := hclean c hc
    simp [notTabNl, hcc.1, hcc.2]
  simp only [takeWhile_all hall, dropWhile_all hall, ne_nil_isEmpty hne,
    Bool.false_eq_true, if_false]

theorem goodFile_spec {f : PatchedFile} (h : goodFile f = true) :
    goodName f.source_file = true ∧ goodName f.target_file = true ∧ f.hunks ≠ []
      ∧ ∀ x ∈ f.hunks, goodHunk x = true := by
  simp only [goodFile, Bool.and_eq_true, List.all_eq_true, Bool.not_eq_true'] at h
  obtain ⟨⟨⟨h1, h2⟩, h3⟩, h4⟩ := h
  exact ⟨h1, h2, by simpa using h3, h4⟩

theorem fold_stats_eq {pf2 f : PatchedFile}
    (ha : pf2.hunks.map Hunk.added = f.hunks.map Hunk.added)
    (hr : pf2.hunks.map Hunk.removed = f.hunks.map Hunk.removed) :
    fileStats pf2 = fileStats f := by
  unfold fileStats PatchedFile.added PatchedFile.removed
  rw [ha, hr]

theorem parseLineStep_src {line fn : Str} {tso : Option Str}
    (h : matchFileHeader "--- ".data line = some (fn, tso))
    (files : List PatchedFile) (cur : Option PatchedFile) (srcF srcT : Option Str) (n : Nat)
    (rest : List Str) :
    parseLineStep files cur srcF srcT n line rest
      = .cont (files ++ cur.toList) none (some fn) (some (tso.getD [])) := by
  unfold parseLineStep
  rw [h]

theorem parseLineStep_tgt_new {line fn : Str} {tso : Option Str} {sf : Str}
    (h1 : matchFileHeader "--- ".data line = none)
    (h2 : matchFileHeader "+++ ".data line = some (fn, tso))
    (files : List PatchedFile) (srcT : Option Str) (n : Nat) (rest : List Str) :
    parseLineStep files none (some sf) srcT n line rest
      = .cont files (some ⟨sf, srcT, fn, some (tso.getD []), []⟩) (some sf) srcT := by
  unfold parseLineStep
  rw [h1, h2]

theorem scan_file {f : PatchedFile} (hf : goodFile f = true) (files : List PatchedFile)
    (cur : Option PatchedFile) (srcF srcT : Option Str) (n : Nat) (rest : List Str) :
    ∃ pf2 m, fileStats pf2 = fileStats f
      ∧ parseMain files cur srcF srcT n (fileLines f ++ rest)
        = parseMain (files ++ cur.toList) (some pf2) (some f.source_file) (some []) m rest := by
  obtain ⟨hsrc, htgt, hhne, hhall⟩ := goodFile_spec hf
  obtain ⟨hsne, hsclean⟩ := goodName_spec hsrc
  obtain ⟨htne, htclean⟩ := goodName_spec htgt
  have hmsrc : matchFileHeader "--- ".data ("--- ".data ++ f.source_file)
      = some (f.source_file, none) :=
    matchFileHeader_self hsne (fun c hc => ⟨(hsclean c hc).2.2, (hsclean c hc).1⟩)
  have hmtgt : matchFileHeader "+++ ".data ("+++ ".data ++ f.target_file)
      = some (f.target_file, none) :=
    matchFileHeader_self htne (fun c hc => ⟨(htclean c hc).2.2, (htclean c hc).1⟩)
  have hnotsrc : matchFileHeader "--- ".data ("+++ ".data ++ f.target_file) = none := by
    refine matchFileHeader_none ?_
    rw [data_tgt, data_src]
    exact dropLit_head_ne (by decide) _
  unfold fileLines
  rw [List.cons_append, parseMain_cons, parseLineStep_src hmsrc]
  dsimp only
  rw [List.cons_append, parseMain_cons, parseLineStep_tgt_new hnotsrc hmtgt]
  dsimp only
  obtain ⟨pf2, m, ha, hr, heq⟩ := scan_hunks f.hunks hhall (files ++ cur.toList)
    ⟨f.source_file, some [], f.target_file, some [], []⟩ (some f.source_file) (some [])
    (n + 1 + 1) rest
  refine ⟨pf2, m, ?_, ?_⟩
  · refine fold_stats_eq ?_ ?_
    · simpa using ha
    · simpa using hr
  · simpa using heq

end Unidiff

namespace Unidiff

theorem scan_files : ∀ (fl : List PatchedFile), (∀ f ∈ fl, goodFile f = true) →
    ∀ (files : List PatchedFile) (cur : Option PatchedFile) (srcF srcT : Option Str) (n : Nat),
    ∃ fl2, parseMain files cur srcF srcT n (fl.map fileLines).flatten
        = .ok (files ++ cur.toList ++ fl2)
      ∧ fl2.map fileStats = fl.map fileStats := by
  intro fl
  induction fl with
  | nil =>
    intro hg files cur srcF srcT n
    refine ⟨[], ?_, rfl⟩
    simp [parseMain]
  | cons f fl ih =>
    intro hg files cur srcF srcT n
    simp only [List.map_cons, List.flatten_cons]
    obtain ⟨pf2, m, hstats, heq⟩ := scan_file (hg f (by simp)) files cur srcF srcT n
      ((fl.map fileLines).flatten)
    rw [heq]
    obtain ⟨fl2, heq2, hst2⟩ := ih (fun x hx => hg x (by simp [hx])) (files ++ cur.toList)
      (some pf2) (some f.source_file) (some []) m
    rw [heq2]
    refine ⟨pf2 :: fl2, by simp, ?_⟩
    simp [hst2, hstats]

theorem getLast_mem_of_some {l : Str} {a : Char} (h : l.getLast? = some a) : a ∈ l := by
  induction l with
  | nil => simp [List.getLast?] at h
  | cons x t ih =>
    cases t with
    | nil =>
      simp [List.getLast?] at h
      simp [h]
    | cons y u =>
      rw [List.getLast?_cons_cons] at h
      exact List.mem_cons_of_mem x (ih h)

theorem stripCR_id {l : Str} (h : ∀ c ∈ l, c ≠ '\r') : stripCR l = l := by
  unfold stripCR
  split
  · rename_i hget
    exact absurd rfl (h '\r' (getLast_mem_of_some hget))
  · rfl

theorem rustLinesGo_nonl {s : Str} (h : ∀ c ∈ s, c ≠ '\n') :
    ∀ acc, rustLinesGo acc s = if acc.reverse ++ s = [] then [] else [acc.reverse ++ s] := by
  induction s with
  | nil =>
    intro acc
    rw [rustLinesGo]
    by_cases ha : acc = []
    · simp [ha]
    · rw [if_neg ha, if_neg (by simp [ha])]
      simp
  | cons c t ih =>
    intro acc
    have hc : c ≠ '\n' := h c (by simp)
    rw [rustLinesGo, if_neg hc, ih (fun x hx => h x (by simp [hx])) (c :: acc)]
    rw [if_neg (by simp), if_neg (by simp)]
    simp

theorem rustLinesGo_line {l : Str} (h : ∀ c ∈ l, c ≠ '\n') :
    ∀ (acc rest : Str), rustLinesGo acc (l ++ '\n' :: rest)
      = stripCR (acc.reverse ++ l) :: rustLinesGo [] rest := by
  induction l with
  | nil =>
    intro acc rest
    rw [List.nil_append, rustLinesGo, if_pos rfl]
    simp
  | cons c t ih =>
    intro acc rest
    have hc : c ≠ '\n' := h c (by simp)
    rw [List.cons_append, rustLinesGo, if_neg hc, ih (fun x hx => h x (by simp [hx])) (c :: acc)]
    simp

theorem rustLines_joinNl : ∀ {ls : List Str}, ls ≠ [] →
    (∀ l ∈ ls, l ≠ [] ∧ ∀ c ∈ l, c ≠ '\n' ∧ c ≠ '\r') →
    rustLines (joinNl ls) = ls := by
  intro ls
  induction ls with
  | nil => intro h; exact absurd rfl h
  | cons x t ih =>
    intro _ hall
    obtain ⟨hxne, hxcl⟩ := hall x (by simp)
    cases t with
    | nil =>
      unfold rustLines
      rw [show joinNl [x] = x from rfl, rustLinesGo_nonl (fun c hc => (hxcl c hc).1) []]
      simp [hxne]
    | cons y u =>
      unfold rustLines
      rw [show joinNl (x :: y :: u) = x ++ '\n' :: joinNl (y :: u) from rfl,
        rustLinesGo_line (fun c hc => (hxcl c hc).1)]
      have hrec := ih (by simp) (fun l hl => hall l (by simp [hl]))
      unfold rustLines at hrec
      rw [hrec]
      simp only [List.reverse_nil, List.nil_append]
      rw [stripCR_id (fun c hc => (hxcl c hc).2)]

end Unidiff

namespace Unidiff

theorem joinNl_append : ∀ {xs : List Str}, xs ≠ [] → ∀ {ys : List Str}, ys ≠ [] →
    joinNl (xs ++ ys) = joinNl xs ++ '\n' :: joinNl ys := by
  intro xs
  induction xs with
  | nil => intro h; exact absurd rfl h
  | cons a t ih =>
    intro _ ys hy
    cases t with
    | nil =>
      cases ys with
      | nil => exact absurd rfl hy
      | cons b u => simp [joinNl]
    | cons c u =>
      rw [List.cons_append, List.cons_append,
        show joinNl (a :: c :: (u ++ ys)) = a ++ '\n' :: joinNl (c :: (u ++ ys)) from rfl,
        show joinNl (a :: c :: u) = a ++ '\n' :: joinNl (c :: u) from rfl,
        ← List.cons_append, ih (by simp) hy]
      simp

theorem renderHunk_join {h : Hunk} (hl : h.lines ≠ []) :
    renderHunk h = joinNl (hunkLines h) := by
  unfold renderHunk hunkLines
  cases hlm : h.lines.map renderLine with
  | nil => exact absurd (List.map_eq_nil_iff.mp hlm) hl
  | cons a t => rfl

theorem joinNl_hunks : ∀ {hs : List Hunk}, hs ≠ [] → (∀ h ∈ hs, h.lines ≠ []) →
    joinNl (hs.map renderHunk) = joinNl (hs.map hunkLines).flatten := by
  intro hs
  induction hs with
  | nil => intro h; exact absurd rfl h
  | cons h t ih =>
    intro _ hlines
    cases t with
    | nil => simp [joinNl, renderHunk_join (hlines h (by simp))]
    | cons h2 u =>
      simp only [List.map_cons, List.flatten_cons]
      rw [show joinNl (renderHunk h :: renderHunk h2 :: u.map renderHunk)
          = renderHunk h ++ '\n' :: joinNl (renderHunk h2 :: u.map renderHunk) from rfl]
      rw [show (renderHunk h2 :: List.map renderHunk u) = (h2 :: u).map renderHunk from rfl]
      rw [ih (by simp) (fun x hx => hlines x (by simp [hx]))]
      rw [renderHunk_join (hlines h (by simp)),
        ← joinNl_append (show hunkLines h ≠ [] by simp [hunkLines])
          (show (List.map hunkLines (h2 :: u)).flatten ≠ [] by simp [hunkLines])]
      simp

theorem renderFile_join {f : PatchedFile} (hf : goodFile f = true) :
    renderFile f = joinNl (fileLines f) := by
  obtain ⟨-, -, hhne, hhall⟩ := goodFile_spec hf
  have hlines : ∀ h ∈ f.hunks, h.lines ≠ [] := fun h hh => (goodHunk_spec (hhall h hh)).1
  unfold renderFile fileLines
  rw [joinNl_hunks hhne hlines]
  have hne : (f.hunks.map hunkLines).flatten ≠ [] := by
    cases hh : f.hunks with
    | nil => rw [hh] at hhne; exact absurd rfl hhne
    | cons h t => simp [hunkLines]
  obtain ⟨a, t, hat⟩ := List.exists_cons_of_ne_nil hne
  rw [hat]
  rw [show joinNl (("--- ".data ++ f.source_file) :: ("+++ ".data ++ f.target_file) :: a :: t)
      = ("--- ".data ++ f.source_file) ++ '\n'
        :: (("+++ ".data ++ f.target_file) ++ '\n' :: joinNl (a :: t)) from rfl]
  simp [List.append_assoc]

theorem renderPS_join : ∀ {fl : List PatchedFile}, fl ≠ [] → goodPS fl = true →
    renderPS fl = joinNl (fl.map fileLines).flatten := by
  intro fl
  induction fl with
  | nil => intro h; exact absurd rfl h
  | cons f t ih =>
    intro _ hg
    have hgf : goodFile f = true := (List.all_eq_true.mp hg) f (by simp)
    have hgt : goodPS t = true := by
      simp only [goodPS, List.all_eq_true] at hg ⊢
      exact fun x hx => hg x (by simp [hx])
    cases t with
    | nil =>
      simp only [List.map_cons, List.map_nil, List.flatten_cons, List.flatten_nil,
        List.append_nil]
      rw [show renderPS [f] = renderFile f from rfl, renderFile_join hgf]
    | cons f2 u =>
      rw [show renderPS (f :: f2 :: u) = renderFile f ++ '\n' :: renderPS (f2 :: u) from rfl]
      rw [ih (by simp) hgt, renderFile_join hgf]
      simp only [List.map_cons, List.flatten_cons]
      rw [← joinNl_append (show fileLines f ≠ [] by simp [fileLines])
        (show fileLines f2 ++ (List.map fileLines u).flatten ≠ [] by simp [fileLines])]

end Unidiff

namespace Unidiff

theorem forall_mem_append_list {P : Char → Prop} {a b : Str}
    (ha : ∀ c ∈ a, P c) (hb : ∀ c ∈ b, P c) : ∀ c ∈ a ++ b, P c := by
  intro c hc
  rcases List.mem_append.mp hc with h | h
  · exact ha c h
  · exact hb c h

theorem natDigits_clean {n : Nat} : ∀ c ∈ natDigits n, c ≠ '\n' ∧ c ≠ '\r' := by
  intro c hc
  have hp := isDig_props (natDigits_isDig c hc)
  exact ⟨hp.2.2.1, hp.2.2.2.1⟩

theorem hunkHeaderLine_clean {h : Hunk} (hsec : ∀ c ∈ h.section_header, c ≠ '\n' ∧ c ≠ '\r') :
    hunkHeaderLine h ≠ [] ∧ ∀ c ∈ hunkHeaderLine h, c ≠ '\n' ∧ c ≠ '\r' := by
  constructor
  · unfold hunkHeaderLine
    rw [data_hh]
    simp
  · unfold hunkHeaderLine
    exact forall_mem_append_list (forall_mem_append_list (forall_mem_append_list
      (forall_mem_append_list (forall_mem_append_list (forall_mem_append_list
      (forall_mem_append_list (forall_mem_append_list (forall_mem_append_list
      (cleanStr_spec (by decide)) natDigits_clean) (cleanStr_spec (by decide)))
      natDigits_clean) (cleanStr_spec (by decide))) natDigits_clean)
      (cleanStr_spec (by decide))) natDigits_clean) (cleanStr_spec (by decide))) hsec

theorem hdr_name_clean {s : Str} (hname : goodName s = true) {marker : Str}
    (hm : cleanStr marker = true) (hmne : marker ≠ []) :
    marker ++ s ≠ [] ∧ ∀ c ∈ marker ++ s, c ≠ '\n' ∧ c ≠ '\r' := by
  refine ⟨by simp [hmne], ?_⟩
  refine forall_mem_append_list (cleanStr_spec hm) ?_
  intro c hc
  have hp := (goodName_spec hname).2 c hc
  exact ⟨hp.1, hp.2.1⟩

theorem renderLine_clean {l : Line} (hg : goodLine l = true) :
    renderLine l ≠ [] ∧ ∀ c ∈ renderLine l, c ≠ '\n' ∧ c ≠ '\r' := by
  obtain ⟨hemp, hcl, -, -⟩ := goodLine_spec hg
  cases hlt : l.line_type with
  | Empty => exact absurd hlt hemp
  | Added =>
    rw [show renderLine l = '+' :: l.value by simp [renderLine, LineType.marker, hlt]]
    refine ⟨by simp, ?_⟩
    intro c hc
    rcases List.mem_cons.mp hc with rfl | hc
    · exact ⟨by decide, by decide⟩
    · exact hcl c hc
  | Removed =>
    rw [show renderLine l = '-' :: l.value by simp [renderLine, LineType.marker, hlt]]
    refine ⟨by simp, ?_⟩
    intro c hc
    rcases List.mem_cons.mp hc with rfl | hc
    · exact ⟨by decide, by decide⟩
    · exact hcl c hc
  | Context =>
    rw [show renderLine l = ' ' :: l.value by simp [renderLine, LineType.marker, hlt]]
    refine ⟨by simp, ?_⟩
    intro c hc
    rcases List.mem_cons.mp hc with rfl | hc
    · exact ⟨by decide, by decide⟩
    · exact hcl c hc

theorem fileLines_clean {f : PatchedFile} (hf : goodFile f = true) :
    ∀ l ∈ fileLines f, l ≠ [] ∧ ∀ c ∈ l, c ≠ '\n' ∧ c ≠ '\r' := by
  obtain ⟨hs, ht, -, hall⟩ := goodFile_spec hf
  intro l hl
  unfold fileLines at hl
  rcases List.mem_cons.mp hl with rfl | hl
  · exact hdr_name_clean hs (by decide) (by decide)
  rcases List.mem_cons.mp hl with rfl | hl
  · exact hdr_name_clean ht (by decide) (by decide)
  obtain ⟨L, hL, hlL⟩ := List.mem_flatten.mp hl
  obtain ⟨h, hh, rfl⟩ := List.mem_map.mp hL
  have hhg := goodHunk_spec (hall h hh)
  unfold hunkLines at hlL
  rcases List.mem_cons.mp hlL with rfl | hlL
  · exact hunkHeaderLine_clean hhg.2.2.2.2.1
  obtain ⟨x, hx, rfl⟩ := List.mem_map.mp hlL
  exact renderLine_clean (hhg.2.1 x hx)

theorem reparse_render {fl : List PatchedFile} (hg : goodPS fl = true) :
    ∃ fl2, PatchSet.parse [] (renderPS fl) = .ok fl2
      ∧ fl2.map fileStats = fl.map fileStats := by
  rcases hfl : fl with _ | ⟨f, t⟩
  · exact ⟨[], rfl, rfl⟩
  · unfold PatchSet.parse
    rw [renderPS_join (by simp) (hfl ▸ hg),
      rustLines_joinNl (show ((f :: t).map fileLines).flatten ≠ [] by simp [fileLines]) ?hcl]
    · obtain ⟨fl2, heq, hst⟩ := scan_files (f :: t) (List.all_eq_true.mp (hfl ▸ hg)) [] none
        none none 0
      exact ⟨fl2, by simpa using heq, hst⟩
    case hcl =>
      intro l hl
      obtain ⟨L, hL, hlL⟩ := List.mem_flatten.mp hl
      obtain ⟨g, hgm, rfl⟩ := List.mem_map.mp hL
      exact fileLines_clean ((List.all_eq_true.mp (hfl ▸ hg)) g hgm) l hlL

end Unidiff

namespace Unidiff

/-- Claim C1: parsing the hunk with header `@@ -1,3 +1,4 @@` and body
lines ` a`, `-b`, `+c`, `+d`, ` e` assigns the (source, target) line-number
pairs (1,1), (2,none), (none,2), (none,3), (3,4) in order, with `added() = 2`
and `removed() = 1`; and in general an `Added` line receives and advances
only the target cursor, a `Removed` line only the source cursor, a `Context`
line both, and an `Empty` line neither. -/
theorem c1_hunk_line_numbering :
    ((PatchedFile.parse_hunk ⟨"a".data, none, "b".data, none, []⟩ ("@@ -1,3 +1,4 @@".data) 0
        [" a".data, "-b".data, "+c".data, "+d".data, " e".data]).map
      (fun pf => pf.hunks.map fun h =>
        (h.lines.map fun l => (l.source_line_no, l.target_line_no), h.added, h.removed)))
      = .ok [([(some 1, some 1), (some 2, none), (none, some 2), (none, some 3),
          (some 3, some 4)], 2, 1)]
    ∧ (∀ n s t v, mkBodyLine n s t LineType.Added v
        = ⟨none, some t, n + 1, LineType.Added, v⟩ ∧ ltStep s t LineType.Added = (s, t + 1))
    ∧ (∀ n s t v, mkBodyLine n s t LineType.Removed v
        = ⟨some s, none, n + 1, LineType.Removed, v⟩ ∧ ltStep s t LineType.Removed = (s + 1, t))
    ∧ (∀ n s t v, mkBodyLine n s t LineType.Context v
        = ⟨some s, some t, n + 1, LineType.Context, v⟩
          ∧ ltStep s t LineType.Context = (s + 1, t + 1))
    ∧ (∀ n s t v, mkBodyLine n s t LineType.Empty v
        = ⟨none, none, n + 1, LineType.Empty, v⟩ ∧ ltStep s t LineType.Empty = (s, t)) := by
  refine ⟨by decide, ?_, ?_, ?_, ?_⟩ <;> exact fun n s t v => ⟨rfl, rfl⟩

/-- Claim C2: a hunk header that omits the `,length` part on either side
gives that side a parsed length of `0` (not the conventional unified-diff
default of `1`), for the source side and the target side independently. -/
theorem c2_missing_length_defaults_zero (a b c : Nat) (pf : PatchedFile) (n : Nat) :
    pf.parse_hunk ("@@ -".data ++ natDigits a ++ " +".data ++ natDigits b ++ " @@".data) n []
        = .ok { pf with hunks := pf.hunks ++ [⟨0, 0, a, 0, b, 0, [], []⟩] }
      ∧ pf.parse_hunk ("@@ -".data ++ natDigits a ++ [','] ++ natDigits c ++ " +".data
            ++ natDigits b ++ " @@".data) n []
        = .ok { pf with hunks := pf.hunks ++ [⟨0, 0, a, c, b, 0, [], []⟩] }
      ∧ pf.parse_hunk ("@@ -".data ++ natDigits a ++ " +".data ++ natDigits b ++ [',']
            ++ natDigits c ++ " @@".data) n []
        = .ok { pf with hunks := pf.hunks ++ [⟨0, 0, a, 0, b, c, [], []⟩] } := by
  have h1 : parseHunkHeader ("@@ -".data ++ natDigits a ++ " +".data ++ natDigits b
      ++ " @@".data) = some (a, none, b, none, []) := by
    unfold parseHunkHeader
    simp only [data_hh, data_plus, data_atat, List.append_assoc, List.cons_append,
      List.nil_append]
    simp only [dropLit, reduceIte]
    rw [parseNumPair_nolen a (by decide) (by decide)]
    simp only [dropLit, reduceIte]
    rw [parseNumPair_nolen b (by decide) (by decide)]
    simp only [dropLit, reduceIte]
    rfl
  have h2 : parseHunkHeader ("@@ -".data ++ natDigits a ++ [','] ++ natDigits c ++ " +".data
      ++ natDigits b ++ " @@".data) = some (a, some c, b, none, []) := by
    unfold parseHunkHeader
    simp only [data_hh, data_plus, data_atat, List.append_assoc, List.cons_append,
      List.singleton_append, List.nil_append]
    simp only [dropLit, reduceIte]
    rw [parseNumPair_len a c (by decide)]
    simp only [dropLit, reduceIte]
    rw [parseNumPair_nolen b (by decide) (by decide)]
    simp only [dropLit, reduceIte]
    rfl
  have h3 : parseHunkHeader ("@@ -".data ++ natDigits a ++ " +".data ++ natDigits b ++ [',']
      ++ natDigits c ++ " @@".data) = some (a, none, b, some c, []) := by
    unfold parseHunkHeader
    simp only [data_hh, data_plus, data_atat, List.append_assoc, List.cons_append,
      List.singleton_append, List.nil_append]
    simp only [dropLit, reduceIte]
    rw [parseNumPair_nolen a (by decide) (by decide)]
    simp only [dropLit, reduceIte]
    rw [parseNumPair_len b c (by decide)]
    simp only [dropLit, reduceIte]
    rfl
  refine ⟨?_, ?_, ?_⟩
  · unfold PatchedFile.parse_hunk
    rw [h1]
    rfl
  · unfold PatchedFile.parse_hunk
    rw [h2]
    rfl
  · unfold PatchedFile.parse_hunk
    rw [h3]
    rfl

/-- Claim C3 (counterexample): with header `@@ -1,1 +1,1 @@` (declared
extents of one source line and one target line) and body `-a`, `-b`, ` c`,
the builder appends three body lines, more than the two lines the declared
extents account for, because the stop rule waits for both cursors. -/
theorem c3_counterexample :
    parseHunkHeader ("@@ -1,1 +1,1 @@".data) = some (1, some 1, 1, some 1, [])
    ∧ ((PatchedFile.parse_hunk ⟨"a".data, none, "b".data, none, []⟩ ("@@ -1,1 +1,1 @@".data) 0
        ["-a".data, "-b".data, " c".data]).map fun pf => pf.hunks.map fun h =>
          (h.lines.length, h.added, h.removed))
      = .ok [(3, 0, 2)]
    ∧ 1 + 1 < 3 := by
  decide

/-- Claim C3 (amended): after appending a line, the builder stops consuming
input as soon as the source cursor has reached or passed
`source_start + source_length` and the target cursor has reached or passed
`target_start + target_length` — the result no longer depends on the lines
that follow.  (The original claim's consequence that a hunk never appends
more lines than its declared extents account for is false; see the
counterexample.) -/
theorem c3_stop_when_extents_reached (endS endT n s t : Nat) (hk : Hunk) (line : Str)
    (lt : LineType) (v : Str) (hcl : classifyBodyLine line = .ok (lt, v))
    (hs : (ltStep s t lt).1 ≥ endS) (ht : (ltStep s t lt).2 ≥ endT)
    (rest rest2 : List Str) :
    parseHunkLoop endS endT n s t hk (line :: rest)
      = .ok (hk.append (mkBodyLine n s t lt v))
    ∧ parseHunkLoop endS endT n s t hk (line :: rest)
      = parseHunkLoop endS endT n s t hk (line :: rest2) := by
  have hstep : ∀ r : List Str, parseHunkLoop endS endT n s t hk (line :: r)
      = .ok (hk.append (mkBodyLine n s t lt v)) := by
    intro r
    rw [parseHunkLoop]
    unfold hunkLineStep
    rw [hcl]
    simp [hs, ht]
  exact ⟨hstep rest, (hstep rest).trans (hstep rest2).symm⟩

/-- Claim C3 amended witness at a concrete input: header extents 1,1 from
cursors 1,1; the context line ` x` satisfies both extents at once and the
loop stops regardless of the junk line that follows. -/
theorem c3_stop_when_extents_reached_witness :
    parseHunkLoop 2 2 0 1 1 ⟨0, 0, 1, 1, 1, 1, [], []⟩ [" x".data, "junk".data]
      = .ok ((⟨0, 0, 1, 1, 1, 1, [], []⟩ : Hunk).append
          (mkBodyLine 0 1 1 LineType.Context ("x".data))) :=
  (c3_stop_when_extents_reached 2 2 0 1 1 ⟨0, 0, 1, 1, 1, 1, [], []⟩ (" x".data)
    LineType.Context ("x".data) (by decide) (by decide) (by decide) ["junk".data] []).1

/-- Claim C4 (counterexample): a line whose first character is not one of
`+`, `-`, space, newline or backslash is classified `Context` with the whole
line as value (not a classification failure), and a line starting with `+`
is classified `Added` even when it ends in the literal no-newline marker
text (not `Empty`). -/
theorem c4_counterexample :
    classifyBodyLine ("xy".data) = .ok (.Context, "xy".data)
    ∧ classifyBodyLine ("+a\\ No newline at end of file".data)
      = .ok (.Added, "a\\ No newline at end of file".data) := by
  decide

/-- Claim C4 (amended): the body-line classifier maps a leading `+` to
`Added`, `-` to `Removed`, space to `Context`, an empty line to `Context`,
and a leading newline character to `Context`; a line starting with a
backslash is `Empty` when the line ends in the literal text
`\ No newline at end of file` and a classification failure otherwise; a line
starting with any other character is `Context` with the entire line as its
value.  In every case the value capture stops at an embedded newline. -/
theorem c4_classifier_cases (c : Char) (r : Str) :
    classifyBodyLine [] = .ok (.Context, [])
    ∧ classifyBodyLine ('+' :: r) = .ok (.Added, nlTrunc r)
    ∧ classifyBodyLine ('-' :: r) = .ok (.Removed, nlTrunc r)
    ∧ classifyBodyLine (' ' :: r) = .ok (.Context, nlTrunc r)
    ∧ classifyBodyLine ('\n' :: r) = .ok (.Context, nlTrunc r)
    ∧ (endsWithL noNlMarker ('\\' :: r) = true →
        classifyBodyLine ('\\' :: r) = .ok (.Empty, nlTrunc r))
    ∧ (endsWithL noNlMarker ('\\' :: r) = false →
        classifyBodyLine ('\\' :: r) = .error ('\\' :: r))
    ∧ (c ≠ '+' → c ≠ '-' → c ≠ ' ' → c ≠ '\n' → c ≠ '\\' →
        classifyBodyLine (c :: r) = .ok (.Context, nlTrunc (c :: r))) := by
  refine ⟨rfl, rfl, rfl, rfl, rfl, ?_, ?_, ?_⟩
  · intro he
    simp [classifyBodyLine, he]
  · intro he
    simp [classifyBodyLine, he]
  · intro h1 h2 h3 h4 h5
    simp [classifyBodyLine, h1, h2, h3, h4, h5]

/-- Claim C4 amended witness: the classifier on the concrete line `xy`
(leading character not a marker) yields `Context` with the whole line as
value. -/
theorem c4_classifier_cases_witness :
    classifyBodyLine ('x' :: "y".data) = .ok (.Context, nlTrunc ('x' :: "y".data)) :=
  (c4_classifier_cases 'x' ("y".data)).2.2.2.2.2.2.2
    (by decide) (by decide) (by decide) (by decide) (by decide)

end Unidiff

namespace Unidiff

/-- Claim C5: `path()` strips `a/` from the source name when source starts
with `a/` and target starts with `b/`; strips `a/` when source starts with
`a/` and target is `/dev/null`; strips `b/` from the target name when
target starts with `b/` and source is `/dev/null`; and otherwise returns
the raw source name — the rules tried in exactly that order. -/
theorem c5_path_rules (pf : PatchedFile) :
    (startsWithL "a/".data pf.source_file = true →
      startsWithL "b/".data pf.target_file = true → pf.path = pf.source_file.drop 2)
    ∧ (startsWithL "a/".data pf.source_file = true → pf.target_file = "/dev/null".data →
      pf.path = pf.source_file.drop 2)
    ∧ (pf.source_file = "/dev/null".data → startsWithL "b/".data pf.target_file = true →
      pf.path = pf.target_file.drop 2)
    ∧ (¬(startsWithL "a/".data pf.source_file = true
          ∧ startsWithL "b/".data pf.target_file = true) →
      ¬(startsWithL "a/".data pf.source_file = true ∧ pf.target_file = "/dev/null".data) →
      ¬(startsWithL "b/".data pf.target_file = true ∧ pf.source_file = "/dev/null".data) →
      pf.path = pf.source_file) := by
  unfold PatchedFile.path
  refine ⟨?_, ?_, ?_, ?_⟩
  · intro h1 h2
    rw [if_pos (by simp [h1, h2])]
  · intro h1 h2
    by_cases hb : startsWithL "b/".data pf.target_file = true
    · rw [h2] at hb
      exact absurd hb (by decide)
    · rw [if_neg (by simp [Bool.and_eq_true, hb]), if_pos (by simp [h1, h2])]
  · intro h1 h2
    have ha : startsWithL "a/".data pf.source_file = false := by rw [h1]; decide
    rw [if_neg (by simp [Bool.and_eq_true, ha]), if_neg (by simp [Bool.and_eq_true, ha]),
      if_pos (by simp [h1, h2])]
  · intro h1 h2 h3
    rw [if_neg (by rw [Bool.and_eq_true]; exact h1),
      if_neg (by rw [Bool.and_eq_true]; simpa [beq_iff_eq] using h2),
      if_neg (by rw [Bool.and_eq_true]; simpa [beq_iff_eq] using h3)]

/-- Claim C5 witness: on source `a/foo.txt`, target `b/foo.txt` the first
rule applies and the leading `a/` is stripped. -/
theorem c5_path_rules_witness :
    PatchedFile.path ⟨"a/foo.txt".data, none, "b/foo.txt".data, none, []⟩
      = ("a/foo.txt".data).drop 2 :=
  (c5_path_rules ⟨"a/foo.txt".data, none, "b/foo.txt".data, none, []⟩).1
    (by decide) (by decide)

/-- Claim C6: `is_added_file()` holds exactly when the file has exactly one
hunk whose declared source start and source length are both zero;
`is_removed_file()` exactly when it has exactly one hunk whose declared
target start and target length are both zero; and `is_modified_file()`
exactly when neither of the other two predicates holds — all three computed
from the current hunk list on each call. -/
theorem c6_file_classification (pf : PatchedFile) :
    (pf.is_added_file = true
      ↔ ∃ h, pf.hunks = [h] ∧ h.source_start = 0 ∧ h.source_length = 0)
    ∧ (pf.is_removed_file = true
      ↔ ∃ h, pf.hunks = [h] ∧ h.target_start = 0 ∧ h.target_length = 0)
    ∧ (pf.is_modified_file = true
      ↔ ¬pf.is_added_file = true ∧ ¬pf.is_removed_file = true) := by
  refine ⟨?_, ?_, ?_⟩
  · unfold PatchedFile.is_added_file
    cases hh : pf.hunks with
    | nil => simp
    | cons h t =>
      cases t with
      | nil => simp [Bool.and_eq_true, decide_eq_true_eq]
      | cons h2 u => simp
  · unfold PatchedFile.is_removed_file
    cases hh : pf.hunks with
    | nil => simp
    | cons h t =>
      cases t with
      | nil => simp [Bool.and_eq_true, decide_eq_true_eq]
      | cons h2 u => simp
  · unfold PatchedFile.is_modified_file
    simp [Bool.and_eq_true, Bool.not_eq_true']

/-- Claim C6 witness: a file holding exactly one hunk declared `@@ -0,0
+1,4 @@` is classified as an added file. -/
theorem c6_file_classification_witness :
    PatchedFile.is_added_file ⟨"a".data, none, "b".data, none, [⟨0, 0, 0, 0, 1, 4, [], []⟩]⟩
      = true :=
  (c6_file_classification ⟨"a".data, none, "b".data, none, [⟨0, 0, 0, 0, 1, 4, [], []⟩]⟩).1.mpr
    ⟨⟨0, 0, 0, 0, 1, 4, [], []⟩, rfl, rfl, rfl⟩

/-- Claim C7: a line matching the target-file header pattern while a file is
already pending yields a `TargetWithoutSource` failure carrying the line
text; in particular two consecutive `+++` headers with no intervening `---`
header fail this way. -/
theorem c7_target_without_source :
    (∀ (files : List PatchedFile) (pf : PatchedFile) (srcF srcT : Option Str) (n : Nat)
      (line : Str) (rest : List Str) (fn : Str) (tso : Option Str),
      matchFileHeader "+++ ".data line = some (fn, tso) →
      parseMain files (some pf) srcF srcT n (line :: rest) = .err (.TargetWithoutSource line))
    ∧ PatchSet.parse [] ("--- a\n+++ b\n+++ c".data)
      = .err (.TargetWithoutSource ("+++ c".data)) := by
  constructor
  · intro files pf srcF srcT n line rest fn tso h
    have hd : ∃ r, line = "+++ ".data ++ r := by
      unfold matchFileHeader at h
      cases hdl : dropLit "+++ ".data line with
      | none => rw [hdl] at h; simp at h
      | some r => exact ⟨r, dropLit_eq_some hdl⟩
    obtain ⟨r, rfl⟩ := hd
    have hsrc : matchFileHeader "--- ".data ("+++ ".data ++ r) = none := by
      refine matchFileHeader_none ?_
      rw [data_tgt, data_src]
      exact dropLit_head_ne (by decide) _
    rw [parseMain_cons]
    unfold parseLineStep
    rw [hsrc, h]
  · decide

/-- Claim C7 witness: a target header seen while the file `(a, b)` is
pending fails with `TargetWithoutSource` carrying the line. -/
theorem c7_target_without_source_witness :
    parseMain [] (some ⟨"a".data, none, "b".data, none, []⟩) (some ("a".data)) (some []) 2
      ["+++ z".data] = .err (.TargetWithoutSource ("+++ z".data)) :=
  c7_target_without_source.1 [] ⟨"a".data, none, "b".data, none, []⟩ (some ("a".data))
    (some []) 2 ("+++ z".data) [] ("z".data) none (by decide)

/-- Claim C8: a line matching the hunk-header pattern with no file pending
yields an `UnexpectedHunk` failure carrying the line text; with a file
pending the same line is delegated to the hunk builder on the following
lines instead, and the dispatch itself raises no error. -/
theorem c8_unexpected_hunk :
    (∀ (files : List PatchedFile) (srcF srcT : Option Str) (n : Nat) (line : Str)
      (rest : List Str), (parseHunkHeader line).isSome = true →
      parseMain files none srcF srcT n (line :: rest) = .err (.UnexpectedHunk line))
    ∧ (∀ (files : List PatchedFile) (pf : PatchedFile) (srcF srcT : Option Str) (n : Nat)
      (line : Str) (rest : List Str), (parseHunkHeader line).isSome = true →
      parseMain files (some pf) srcF srcT n (line :: rest)
        = match pf.parse_hunk line (n + 1) rest with
          | .ok pf2 => parseMain files (some pf2) srcF srcT (n + 1) rest
          | .error e => .err e)
    ∧ PatchSet.parse [] ("@@ -1,1 +1,1 @@".data)
      = .err (.UnexpectedHunk ("@@ -1,1 +1,1 @@".data)) := by
  have hdec : ∀ line : Str, (parseHunkHeader line).isSome = true →
      ∃ r, line = "@@ -".data ++ r := by
    intro line h
    unfold parseHunkHeader at h
    cases hdl : dropLit "@@ -".data line with
    | none => rw [hdl] at h; simp at h
    | some r => exact ⟨r, dropLit_eq_some hdl⟩
  refine ⟨?_, ?_, by decide⟩
  · intro files srcF srcT n line rest h
    obtain ⟨r, rfl⟩ := hdec line h
    have hsrc : matchFileHeader "--- ".data ("@@ -".data ++ r) = none := by
      refine matchFileHeader_none ?_
      rw [data_hh, data_src]
      exact dropLit_head_ne (by decide) _
    have htgt : matchFileHeader "+++ ".data ("@@ -".data ++ r) = none := by
      refine matchFileHeader_none ?_
      rw [data_hh, data_tgt]
      exact dropLit_head_ne (by decide) _
    rw [parseMain_cons]
    unfold parseLineStep
    rw [hsrc, htgt, h]
    rfl
  · intro files pf srcF srcT n line rest h
    obtain ⟨r, rfl⟩ := hdec line h
    have hsrc : matchFileHeader "--- ".data ("@@ -".data ++ r) = none := by
      refine matchFileHeader_none ?_
      rw [data_hh, data_src]
      exact dropLit_head_ne (by decide) _
    have htgt : matchFileHeader "+++ ".data ("@@ -".data ++ r) = none := by
      refine matchFileHeader_none ?_
      rw [data_hh, data_tgt]
      exact dropLit_head_ne (by decide) _
    cases hph : pf.parse_hunk ("@@ -".data ++ r) (n + 1) rest with
    | ok pf2 =>
      rw [parseMain_cons]
      unfold parseLineStep
      rw [hsrc, htgt, h]
      dsimp only
      rw [hph]
      rfl
    | error e =>
      rw [parseMain_cons]
      unfold parseLineStep
      rw [hsrc, htgt, h]
      dsimp only
      rw [hph]
      rfl

/-- Claim C8 witness: an `UnexpectedHunk` failure at a concrete hunk header
with no pending file. -/
theorem c8_unexpected_hunk_witness :
    parseMain [] none none none 0 ["@@ -2,2 +2,2 @@".data]
      = .err (.UnexpectedHunk ("@@ -2,2 +2,2 @@".data)) :=
  c8_unexpected_hunk.1 [] none none 0 ("@@ -2,2 +2,2 @@".data) [] (by decide)

end Unidiff

namespace Unidiff

/-- Claim C9 (counterexample): the diff whose hunk contains a no-newline
marker line between a removed and an added line parses with per-file
(added, removed) counts [(1, 1)], but re-parsing its reserialized text
yields counts [(0, 1)] — the `Display` form of an `Empty` line starts with a
literal newline, so on re-parse the marker degenerates into an empty
`Context` line that satisfies the hunk extents early and the `+b` line is
never counted. -/
theorem c9_counterexample :
    (match PatchSet.parse []
        ("--- a/f\n+++ b/f\n@@ -1,1 +1,1 @@\n-a\n\\ No newline at end of file\n+b".data) with
      | .ok fs => some (fs.map fileStats,
          match PatchSet.parse [] (renderPS fs) with
          | .ok fs2 => some (fs2.map fileStats)
          | _ => none)
      | _ => none)
      = some ([(1, 1)], some [(0, 1)]) := by
  decide

/-- Claim C9 (amended): for every diff text that parses successfully into a
patch set in which every file has a nonempty name pair free of tabs,
carriage returns and newlines and at least one hunk, and every hunk has
consistent counters, clean text, no `Empty` (no-newline-marker) lines, no
`Removed` line whose value starts with `-- `, no `Added` line whose value
starts with `++ `, and body lines that replay the stopping rule exactly at
their end, re-parsing the reserialized (`Display`) text succeeds and yields
a patch set with the same number of files and, file by file, the same
`added()` and `removed()` counts. -/
theorem c9_roundtrip_restricted (input : Str) (fs : List PatchedFile)
    (_hp : PatchSet.parse [] input = .ok fs) (hg : goodPS fs = true) :
    ∃ fs2, PatchSet.parse [] (renderPS fs) = .ok fs2 ∧ fs2.length = fs.length
      ∧ fs2.map fileStats = fs.map fileStats := by
  obtain ⟨fs2, heq, hst⟩ := reparse_render hg
  refine ⟨fs2, heq, ?_, hst⟩
  have hlen := congrArg List.length hst
  simpa using hlen

/-- Claim C9 amended witness: the concrete two-line diff below parses into a
patch set satisfying every side condition, and its reserialization re-parses
with the same count data. -/
theorem c9_roundtrip_restricted_witness :
    ∃ fs2, PatchSet.parse [] (renderPS [⟨"a/f".data, some [], "b/f".data, some [],
        [⟨1, 1, 1, 1, 1, 1, [],
          [⟨some 1, none, 4, .Removed, "old".data⟩, ⟨none, some 1, 5, .Added, "new".data⟩]⟩]⟩])
      = .ok fs2
      ∧ fs2.length = ([⟨"a/f".data, some [], "b/f".data, some [],
        [⟨1, 1, 1, 1, 1, 1, [],
          [⟨some 1, none, 4, .Removed, "old".data⟩, ⟨none, some 1, 5, .Added, "new".data⟩]⟩]⟩]
          : List PatchedFile).length
      ∧ fs2.map fileStats = ([⟨"a/f".data, some [], "b/f".data, some [],
        [⟨1, 1, 1, 1, 1, 1, [],
          [⟨some 1, none, 4, .Removed, "old".data⟩, ⟨none, some 1, 5, .Added, "new".data⟩]⟩]⟩]
          : List PatchedFile).map fileStats :=
  c9_roundtrip_restricted ("--- a/f\n+++ b/f\n@@ -1,1 +1,1 @@\n-old\n+new".data)
    [⟨"a/f".data, some [], "b/f".data, some [],
      [⟨1, 1, 1, 1, 1, 1, [],
        [⟨some 1, none, 4, .Removed, "old".data⟩, ⟨none, some 1, 5, .Added, "new".data⟩]⟩]⟩]
    (by decide) (by decide)

/-- Claim C10: the top-level loop re-examines lines already consumed as hunk
body lines.  First input: the added body line `+++ x` (inside the hunk's
declared extent) is re-seen as a target header while the file is pending,
so parse fails with `TargetWithoutSource`.  Second input: the removed body
line `--- x` is re-seen as a source header, so the pending file `(a, b)` is
finalized early — the parse succeeds with two files, the first holding the
hunk whose two consumed body lines are those very header-looking lines, and
the second freshly created from `x`/`+++ y`. -/
theorem c10_toplevel_rescans_hunk_bodies :
    PatchSet.parse [] ("--- a\n+++ b\n@@ -1,1 +1,2 @@\n x\n+++ x".data)
      = .err (.TargetWithoutSource ("+++ x".data))
    ∧ (match PatchSet.parse [] ("--- a\n+++ b\n@@ -1,2 +1,1 @@\n--- x\n+++ y".data) with
        | .ok fs => fs.map fun f =>
            (f.source_file, f.target_file, f.hunks.map fun h => h.lines.map fun l => l.value)
        | _ => [])
      = [("a".data, "b".data, [["-- x".data, "++ y".data]]), ("x".data, "y".data, [])] := by
  decide

end Unidiff
